import Mathlib

/-!
Verification of the `aag2courageous` converter (`src/main.rs`), a shallow
embedding of its core: the resynchronizing RMC/GGA pairer, the record
normalizer, and the surrounding run structure (decode faults, output-file
effects).  Scalar sensor values (`f64`/`f32` latitude, longitude, altitude,
speed, course, certainty) are only ever stored, destructured for presence and
passed through by the program — never combined arithmetically — so they are
carried by `Rat`, which keeps every definition decidable.  Times of day
(`chrono::NaiveTime`) are modelled as nanoseconds of day (chrono's internal
precision), dates (`chrono::NaiveDate`) as days relative to the Unix epoch.
-/

namespace Aag

/-- Carrier for the floating-point sensor fields; the program never performs
arithmetic on them (pass-through only), so any decidable carrier is faithful. -/
abbrev Scalar := Rat

/-- The fields of `nmea::sentences::RmcData` that the program reads.
`fix_time` is a `NaiveTime` modelled as nanoseconds of day; `fix_date` is a
`NaiveDate` modelled as days since the Unix epoch. -/
structure RmcData where
  fix_time : Option Nat
  fix_date : Option Int
  speed_over_ground : Option Scalar
  true_course : Option Scalar
deriving DecidableEq

/-- The fields of `nmea::sentences::GgaData` that the program reads. -/
structure GgaData where
  fix_time : Option Nat
  latitude : Option Scalar
  longitude : Option Scalar
  altitude : Option Scalar
deriving DecidableEq

/-- The pairer's mutable state: the two `Option<RmcData>` locals
`last_rmc` and `previous_rmc` of `main`. -/
structure PendingState where
  last_rmc : Option RmcData
  previous_rmc : Option RmcData
deriving DecidableEq

/-- Outcome of the external decoder on a line that is handed to it:
`err` models `nmea::parse_nmea_sentence` failing, `rmc` a successful
`parse_rmc`, `gga` a failed `parse_rmc` followed by a successful `parse_gga`,
and `other` a well-formed sentence that is neither (both parses fail,
which the program ignores). -/
inductive Decoded where
  | err (msg : String)
  | rmc (r : RmcData)
  | gga (g : GgaData)
  | other
deriving DecidableEq

/-- One input line, as the program observes it: whether the raw text starts
with the vendor comment marker `$PAAG` (checked before decoding), and what
the decoder would return for it. -/
structure RawLine where
  startsPaag : Bool
  decoded : Decoded
deriving DecidableEq

/-- The body of the per-line closure of `main` (lines 76-118 of `main.rs`):
given the pairer state and one line, return the new state together with
`Ok(None)` (no pair), `Ok(Some(gga, rmc))` (a matched pair) or a decode
error. -/
def processLine (s : PendingState) (l : RawLine) :
    PendingState × Except String (Option (GgaData × RmcData)) :=
  if l.startsPaag then (s, .ok none)
  else
    match l.decoded with
    | .err msg => (s, .error msg)
    | .rmc r =>
        if r.fix_time = none then (s, .ok none)
        else if s.last_rmc = none then ({ s with last_rmc := some r }, .ok none)
        else ({ last_rmc := some r, previous_rmc := s.last_rmc }, .ok none)
    | .gga g =>
        match s.previous_rmc with
        | some prev =>
            if g.fix_time = prev.fix_time then
              ({ s with previous_rmc := none }, .ok (some (g, prev)))
            else
              (s, .ok none)
        | none =>
            match s.last_rmc with
            | some last =>
                if g.fix_time = last.fix_time then
                  ({ s with last_rmc := none }, .ok (some (g, last)))
                else
                  (s, .ok none)
            | none => (s, .ok none)
    | .other => (s, .ok none)

/-- The streaming scan over the lines with 1-based line numbering, mirroring
`.map(closure).enumerate().filter_map(context).collect::<Result<Vec<_>,_>>()`:
the first decode error aborts with that line's 1-based number, otherwise the
matched pairs are collected in order. -/
def pairScanFrom (s : PendingState) (n : Nat) :
    List RawLine → Except (Nat × String) (List (GgaData × RmcData))
  | [] => .ok []
  | l :: ls =>
      match processLine s l with
      | (_, .error msg) => .error (n, msg)
      | (s1, .ok none) => pairScanFrom s1 (n + 1) ls
      | (s1, .ok (some p)) => (pairScanFrom s1 (n + 1) ls).map (p :: ·)

/-- The whole pairing pass of `main`, from the empty state, numbering lines
from 1. -/
def pairStream (ls : List RawLine) : Except (Nat × String) (List (GgaData × RmcData)) :=
  pairScanFrom ⟨none, none⟩ 1 ls

/-- The pairer state after a list of lines has been consumed (decode errors
leave the state of the failing line unchanged and the scan stops, so this
fold agrees with the state the scan held at each point). -/
def stateAfter (s : PendingState) : List RawLine → PendingState
  | [] => s
  | l :: ls => stateAfter (processLine s l).1 ls

/-- The instant `date.and_time(time).and_utc()` as whole seconds since the
Unix epoch: chrono's `Duration::num_seconds` truncates the exact duration
toward zero, which on the nanosecond total is truncated (`tdiv`) division
by `10^9`. -/
def combinedSeconds (date : Int) (timeNanos : Nat) : Int :=
  Int.tdiv (date * 86400000000000 + (timeNanos : Int)) 1000000000

/-- Rust `as u64` on a signed value: two's-complement reinterpretation, i.e.
reduction modulo `2^64` into `[0, 2^64)`. -/
def u64OfInt (x : Int) : Nat :=
  (x % (2 ^ 64 : Int)).toNat

/-- `courageous_format::Position3d`. -/
structure Position3d where
  lat : Scalar
  lon : Scalar
  height : Scalar
deriving DecidableEq

/-- `courageous_format::Alarm`. -/
structure Alarm where
  active : Bool
  certainty : Scalar
deriving DecidableEq

/-- The one classification tag the program ever emits
(`courageous_format::Classification::Uav`). -/
inductive Classification where
  | uav
deriving DecidableEq

/-- `courageous_format::TrackingRecord` as populated by the program.
`velocity` and `identification` are never populated, so their payloads are
irrelevant and carried as `Unit`; `record_number` and `time` are `u64`
values represented as `Nat` (the `record_idx as u64` cast from `usize` is
lossless on the 64-bit targets the program runs on, and `time` is produced
by `u64OfInt`). -/
structure TrackingRecord where
  alarm : Alarm
  classification : Classification
  location : Position3d
  record_number : Nat
  time : Nat
  velocity : Option Unit
  identification : Option Unit
  cuas_location : Option Position3d
deriving DecidableEq

/-- The body of the per-pair closure of `main` (lines 134-173 of `main.rs`):
require `fix_date`, `speed_over_ground`, `true_course` on the RMC half and
`fix_time`, `latitude`, `longitude`, `altitude` on the GGA half, else drop;
on success build the record, numbered by the pair's index. -/
def normalizeOne (record_idx : Nat) (gga : GgaData) (rmc : RmcData) :
    Option TrackingRecord :=
  match rmc.fix_date, rmc.speed_over_ground, rmc.true_course with
  | some date, some _speed, some _direction =>
      match gga.fix_time, gga.latitude, gga.longitude, gga.altitude with
      | some time, some lat, some lon, some height =>
          some
            { alarm := { active := false, certainty := 0 }
              classification := .uav
              location := { lat := lat, lon := lon, height := height }
              record_number := record_idx
              time := u64OfInt (combinedSeconds date time)
              velocity := none
              identification := none
              cuas_location := none }
      | _, _, _, _ => none
  | _, _, _ => none

/-- The whole normalization pass: `rmc_gga_records.into_iter().enumerate()
.filter_map(closure).collect()` — every matched pair is numbered by its
0-based position before the completeness filter runs. -/
def normalize (pairs : List (GgaData × RmcData)) : List TrackingRecord :=
  pairs.enum.filterMap fun ip => normalizeOne ip.1 ip.2.1 ip.2.2

/-- The track list of the output document (`courageous_format::Track`);
the name string is derived from the input path by the surrounding plumbing
and is taken here as given. -/
structure Track where
  name : Option String
  uas_id : Nat
  records : List TrackingRecord
  uav_home_location : Option Position3d
deriving DecidableEq

/-- The version tag of the output format; the program always emits
`Version::current()`. -/
inductive Version where
  | current
deriving DecidableEq

/-- The output document (`courageous_format::Document`) as populated by the
program; detections are never produced, so the detection list's element
type is irrelevant and carried as `Unit`. -/
structure Document where
  detection : List Unit
  static_cuas_location : Position3d
  tracks : List Track
  system_name : String
  vendor_name : String
  version : Version
deriving DecidableEq

/-- Builds the document of lines 176-194 of `main.rs` from the normalized
records and the caller-supplied metadata; the track-name string is derived
from the input path by the surrounding plumbing and is taken here as
given. -/
def buildDocument (static_cuas_location : Position3d)
    (trackName : String) (system_name vendor_name : String)
    (records : List TrackingRecord) : Document :=
  { detection := []
    static_cuas_location := static_cuas_location
    tracks := [{ name := some trackName, uas_id := 1, records := records,
                 uav_home_location := none }]
    system_name := system_name
    vendor_name := vendor_name
    version := .current }

/-- Observable state of the output path after a run: whether `File::create`
ran (creating the file, truncating any existing one), and the document whose
serialization was written to it, if the run got that far. -/
structure FileEffects where
  created : Bool
  contents : Option Document
deriving DecidableEq

/-- The conversion run of `main` after argument handling: `File::create`
on the output path runs first (line 64-67 of `main.rs`), before any line is
decoded, so `created` is true in every branch; a decode fault then aborts
with the 1-based line number and nothing is ever serialized, otherwise the
full document is written. -/
def runEffects (static_cuas_location : Position3d) (trackName : String)
    (system_name vendor_name : String) (ls : List RawLine) :
    FileEffects × Option (Nat × String) :=
  match pairStream ls with
  | .error e => ({ created := true, contents := none }, some e)
  | .ok pairs =>
      ({ created := true
         contents := some (buildDocument static_cuas_location trackName
           system_name vendor_name (normalize pairs)) },
       none)

/-- Instrumented pairer state: each retained primary is tagged with the
0-based position of the line that carried it.  The tag is a ghost field used
only to state receipt-order invariants; `eraseTags` recovers the program's
state. -/
structure PendingStateI where
  last_rmc : Option (RmcData × Nat)
  previous_rmc : Option (RmcData × Nat)
deriving DecidableEq

/-- Drops the ghost position tags. -/
def eraseTags (s : PendingStateI) : PendingState :=
  { last_rmc := s.last_rmc.map Prod.fst, previous_rmc := s.previous_rmc.map Prod.fst }

/-- State transition of `processLine`, instrumented with the 0-based index
`idx` of the line being consumed. -/
def stepI (s : PendingStateI) (idx : Nat) (l : RawLine) : PendingStateI :=
  if l.startsPaag then s
  else
    match l.decoded with
    | .err _ => s
    | .rmc r =>
        if r.fix_time = none then s
        else if s.last_rmc = none then { s with last_rmc := some (r, idx) }
        else { last_rmc := some (r, idx), previous_rmc := s.last_rmc }
    | .gga g =>
        match s.previous_rmc with
        | some prev =>
            if g.fix_time = prev.1.fix_time then { s with previous_rmc := none }
            else s
        | none =>
            match s.last_rmc with
            | some last =>
                if g.fix_time = last.1.fix_time then { s with last_rmc := none }
                else s
            | none => s
    | .other => s

/-- Instrumented scan state after consuming the lines, counting positions
from `idx`. -/
def stateAfterI (s : PendingStateI) (idx : Nat) : List RawLine → PendingStateI
  | [] => s
  | l :: ls => stateAfterI (stepI s idx l) (idx + 1) ls

instance {ε α : Type} [DecidableEq ε] [DecidableEq α] : DecidableEq (Except ε α) :=
  fun x y =>
    match x, y with
    | .ok a, .ok b =>
        if h : a = b then .isTrue (by rw [h]) else .isFalse (by simp [h])
    | .ok _, .error _ => .isFalse (by simp)
    | .error _, .ok _ => .isFalse (by simp)
    | .error a, .error b =>
        if h : a = b then .isTrue (by rw [h]) else .isFalse (by simp [h])

/-- Sample primary fix with all fields present and time of day `t`. -/
def rmcAt (t : Nat) : RmcData :=
  { fix_time := some t, fix_date := some 0, speed_over_ground := some 1,
    true_course := some 2 }

/-- Sample secondary fix with all fields present and time of day `t`. -/
def ggaAt (t : Nat) : GgaData :=
  { fix_time := some t, latitude := some 1, longitude := some 2, altitude := some 3 }

/-- Non-comment input line carrying a primary fix. -/
def rmcLine (r : RmcData) : RawLine :=
  { startsPaag := false, decoded := .rmc r }

/-- Non-comment input line carrying a secondary fix. -/
def ggaLine (g : GgaData) : RawLine :=
  { startsPaag := false, decoded := .gga g }

/-- Sample decoder error message. -/
def msgBad : String := "checksum failure"

/-- Non-comment input line on which the sentence decoder fails. -/
def badLine : RawLine :=
  { startsPaag := false, decoded := .err msgBad }

/-- Sample metadata string. -/
def strUnknown : String := "Unknown"

/-- Sample observer location. -/
def posZero : Position3d := { lat := 0, lon := 0, height := 0 }

/-- Sample primary fix whose date is missing (pair dropped by the
normalizer). -/
def rmcNoDate (t : Nat) : RmcData :=
  { fix_time := some t, fix_date := none, speed_over_ground := some 1,
    true_course := some 2 }

/-- Sample primary fix whose speed is missing (pair dropped by the
normalizer even though the five fields the spec lists are present). -/
def rmcNoSpeed (t : Nat) : RmcData :=
  { fix_time := some t, fix_date := some 0, speed_over_ground := none,
    true_course := some 2 }

/-- Sample primary fix dated one day before the Unix epoch. -/
def rmcPreEpoch : RmcData :=
  { fix_time := some 0, fix_date := some (-1), speed_over_ground := some 1,
    true_course := some 2 }

/-- Provenance of one instrumented slot entry: its tag is the 0-based
position of a non-comment line of the stream that decoded to exactly the
primary fix the slot holds. -/
def SlotInv (ls : List RawLine) (e : RmcData × Nat) : Prop :=
  ∃ h : e.2 < ls.length,
    (ls.get ⟨e.2, h⟩).startsPaag = false ∧ (ls.get ⟨e.2, h⟩).decoded = .rmc e.1

/-- Invariant of the instrumented pairer state over the stream `ls`: every
occupied slot is provenanced, an occupied `previous` slot forces an occupied
`last` slot, and the `previous` entry was received strictly earlier than the
`last` entry. -/
def StateInv (ls : List RawLine) (s : PendingStateI) : Prop :=
  (∀ e, s.last_rmc = some e → SlotInv ls e) ∧
  (∀ e, s.previous_rmc = some e → SlotInv ls e ∧ s.last_rmc.isSome) ∧
  (∀ p q, s.previous_rmc = some p → s.last_rmc = some q → p.2 < q.2)

/-- Matched pairs used by the sequence-number witness: the middle pair is
dropped by the normalizer (missing date), leaving records numbered 0 and 2. -/
def pairsGap : List (GgaData × RmcData) :=
  [(ggaAt 1, rmcAt 1), (ggaAt 2, rmcNoDate 2), (ggaAt 3, rmcAt 3)]

/-- The record the normalizer produces from the third pair of `pairsGap`. -/
def recGap : TrackingRecord :=
  { alarm := { active := false, certainty := 0 }
    classification := .uav
    location := { lat := 1, lon := 2, height := 3 }
    record_number := 2
    time := u64OfInt (combinedSeconds 0 3)
    velocity := none
    identification := none
    cuas_location := none }

/-- C1 counterexample: with `previous` holding the primary of time 1 and
`last` holding the primary of time 2, a secondary of time 2 — where the claim
says the `last` slot is still consulted, the pair `(secondary, last)` emitted
and `last` cleared — produces no pair at all and leaves both slots untouched,
because the code only consults `last` when `previous` is empty. -/
theorem c1_counterexample :
    processLine { last_rmc := some (rmcAt 2), previous_rmc := some (rmcAt 1) }
        (ggaLine (ggaAt 2)) =
      ({ last_rmc := some (rmcAt 2), previous_rmc := some (rmcAt 1) }, .ok none) ∧
    (rmcAt 1).fix_time ≠ (ggaAt 2).fix_time ∧
    (rmcAt 2).fix_time = (ggaAt 2).fix_time := by
  decide

/-- C1 amended: on a secondary fix, if `previous` is occupied and its time
equals the secondary's, the pair `(secondary, previous)` is emitted,
`previous` is cleared and `last` is untouched; if `previous` is occupied
with a different time, nothing is emitted and the state is unchanged —
`last` is not consulted; only when `previous` is empty is `last` consulted,
emitting `(secondary, last)` and clearing `last` on a time match and doing
nothing otherwise. -/
theorem c1_gga_dispatch (s : PendingState) (g : GgaData) :
    (∀ prev, s.previous_rmc = some prev →
      (g.fix_time = prev.fix_time →
        processLine s (ggaLine g) =
          ({ s with previous_rmc := none }, .ok (some (g, prev)))) ∧
      (g.fix_time ≠ prev.fix_time →
        processLine s (ggaLine g) = (s, .ok none))) ∧
    (s.previous_rmc = none →
      (∀ last, s.last_rmc = some last →
        (g.fix_time = last.fix_time →
          processLine s (ggaLine g) =
            ({ s with last_rmc := none }, .ok (some (g, last)))) ∧
        (g.fix_time ≠ last.fix_time →
          processLine s (ggaLine g) = (s, .ok none))) ∧
      (s.last_rmc = none → processLine s (ggaLine g) = (s, .ok none))) := by
  constructor
  · intro prev hp
    refine ⟨fun ht => ?_, fun ht => ?_⟩ <;> simp [processLine, ggaLine, hp, ht]
  · intro hp
    refine ⟨fun last hl => ⟨fun ht => ?_, fun ht => ?_⟩, fun hl => ?_⟩
    · simp [processLine, ggaLine, hp, hl, ht]
    · simp [processLine, ggaLine, hp, hl, ht]
    · simp [processLine, ggaLine, hp, hl]

/-- Witness for `c1_gga_dispatch`: a matching `previous` of time 1 is
consumed while `last` keeps its primary of time 2. -/
theorem c1_gga_dispatch_witness :
    processLine { last_rmc := some (rmcAt 2), previous_rmc := some (rmcAt 1) }
        (ggaLine (ggaAt 1)) =
      ({ last_rmc := some (rmcAt 2), previous_rmc := none },
        .ok (some (ggaAt 1, rmcAt 1))) :=
  ((c1_gga_dispatch { last_rmc := some (rmcAt 2), previous_rmc := some (rmcAt 1) }
      (ggaAt 1)).1 (rmcAt 1) rfl).1 (by decide)

/-- C2 counterexample: in the stream `Primary(1), Primary(2), Secondary(2)`
the primary of time 2 is immediately followed by a secondary of the same
time 2, yet the pairer emits no pair at all: the stale primary of time 1
sitting in `previous` blocks the match. -/
theorem c2_counterexample :
    pairStream [rmcLine (rmcAt 1), rmcLine (rmcAt 2), ggaLine (ggaAt 2)] = .ok [] ∧
    (rmcAt 2).fix_time = some 2 ∧ (ggaAt 2).fix_time = some 2 := by
  decide

/-- C2 amended: a primary of time `T` immediately followed by a secondary of
time `T` yields exactly one matched pair (whose primary half has time `T`),
provided that when the two sentences arrive the `last` slot is empty or
holds a primary whose time is also `T` (equivalently, the `previous` slot
after the push does not hold a primary of a different time); the pairer
state is assumed not to hold a lone `previous`, which is invariant. -/
theorem c2_immediate_pair (s : PendingState) (r : RmcData) (g : GgaData) (T : Nat)
    (hwf : s.previous_rmc.isSome → s.last_rmc.isSome)
    (hr : r.fix_time = some T) (hg : g.fix_time = some T)
    (hlast : ∀ q, s.last_rmc = some q → q.fix_time = some T) :
    ∃ r2, (processLine s (rmcLine r)).2 = .ok none ∧
      (processLine (processLine s (rmcLine r)).1 (ggaLine g)).2 =
        .ok (some (g, r2)) ∧
      r2.fix_time = some T := by
  cases hlq : s.last_rmc with
  | none =>
      have hp : s.previous_rmc = none := by
        cases hpq : s.previous_rmc with
        | none => rfl
        | some p =>
            have hs := hwf (by rw [hpq]; rfl)
            rw [hlq] at hs
            exact absurd hs (by simp)
      exact ⟨r, by simp [processLine, rmcLine, hr, hlq],
        by simp [processLine, rmcLine, ggaLine, hr, hlq, hp, hg], hr⟩
  | some q =>
      have hq := hlast q hlq
      exact ⟨q, by simp [processLine, rmcLine, hr, hlq],
        by simp [processLine, rmcLine, ggaLine, hr, hlq, hg, hq], hq⟩

/-- Witness for `c2_immediate_pair`: from the empty state, a primary of
time 5 followed by a secondary of time 5 yields the pair. -/
theorem c2_immediate_pair_witness :
    ∃ r2, (processLine { last_rmc := none, previous_rmc := none }
        (rmcLine (rmcAt 5))).2 = .ok none ∧
      (processLine (processLine { last_rmc := none, previous_rmc := none }
          (rmcLine (rmcAt 5))).1 (ggaLine (ggaAt 5))).2 =
        .ok (some (ggaAt 5, r2)) ∧
      r2.fix_time = some 5 :=
  c2_immediate_pair { last_rmc := none, previous_rmc := none }
    (rmcAt 5) (ggaAt 5) 5 (fun h => h) rfl rfl (fun _ h => Option.noConfusion h)

/-- C3 counterexample: a matched pair whose primary has a date and whose
secondary has time, latitude, longitude and altitude — everything the claim
requires — still yields no record when the primary's speed over ground is
missing: the normalizer also destructures `speed_over_ground` and
`true_course`. -/
theorem c3_counterexample :
    normalizeOne 0 (ggaAt 1) (rmcNoSpeed 1) = none ∧
    (rmcNoSpeed 1).fix_date.isSome ∧ (ggaAt 1).fix_time.isSome ∧
    (ggaAt 1).latitude.isSome ∧ (ggaAt 1).longitude.isSome ∧
    (ggaAt 1).altitude.isSome := by
  decide

/-- C3 amended: a matched pair produces a record if and only if the
primary's `fix_date`, `speed_over_ground` and `true_course` and the
secondary's `fix_time`, `latitude`, `longitude` and `altitude` are all
present; otherwise it is dropped silently (the normalizer returns `none`,
it has no error outcome). -/
theorem c3_record_iff (i : Nat) (g : GgaData) (r : RmcData) :
    (normalizeOne i g r).isSome ↔
      r.fix_date.isSome ∧ r.speed_over_ground.isSome ∧ r.true_course.isSome ∧
      g.fix_time.isSome ∧ g.latitude.isSome ∧ g.longitude.isSome ∧
      g.altitude.isSome := by
  rcases r with ⟨rt, rd, rs, rc⟩
  rcases g with ⟨gt, glat, glon, galt⟩
  cases rd <;> cases rs <;> cases rc <;> cases gt <;> cases glat <;>
    cases glon <;> cases galt <;> simp [normalizeOne]

/-- C4 counterexample: on a stream whose only line is a decode fault the run
aborts, yet the output file has already been created — `File::create` runs
and truncates any existing file before the first line is decoded — so an
existing file at the output path is not preserved. -/
theorem c4_counterexample :
    (runEffects posZero strUnknown strUnknown strUnknown [badLine]).2 =
      some (1, msgBad) ∧
    (runEffects posZero strUnknown strUnknown strUnknown [badLine]).1.created = true := by
  decide

/-- C4 amended: when the run aborts on a decode fault, the output file has
nevertheless been created (truncating any existing file, which is left
empty), but no document — in particular no partial document — is ever
written to it. -/
theorem c4_abort_no_document (cuas : Position3d) (nm : String)
    (sys ven : String) (ls : List RawLine)
    (habort : (runEffects cuas nm sys ven ls).2.isSome) :
    (runEffects cuas nm sys ven ls).1.contents = none ∧
    (runEffects cuas nm sys ven ls).1.created = true := by
  cases h : pairStream ls with
  | error e => simp [runEffects, h]
  | ok ps => simp [runEffects, h] at habort

/-- Witness for `c4_abort_no_document` at the one-bad-line stream. -/
theorem c4_abort_no_document_witness :
    (runEffects posZero strUnknown strUnknown strUnknown [badLine]).1.contents = none ∧
    (runEffects posZero strUnknown strUnknown strUnknown [badLine]).1.created = true :=
  c4_abort_no_document posZero strUnknown strUnknown strUnknown [badLine] (by decide)

/-- C7: on the stream `Primary(T1), Primary(T2), Secondary(T1)` with
`T1 ≠ T2`, the pairer emits exactly the pair of the secondary with the
first primary — the one of time `T1` held in the `previous` slot — and not
with the most recently seen primary of time `T2`. -/
theorem c7_desync_recovery (r1 r2 : RmcData) (g : GgaData) (T1 T2 : Nat)
    (h1 : r1.fix_time = some T1) (h2 : r2.fix_time = some T2)
    (hg : g.fix_time = some T1) (_hne : T1 ≠ T2) :
    pairStream [rmcLine r1, rmcLine r2, ggaLine g] = .ok [(g, r1)] := by
  simp [pairStream, pairScanFrom, processLine, rmcLine, ggaLine, h1, h2, hg,
    Except.map]

/-- Witness for `c7_desync_recovery` with times 1 and 2. -/
theorem c7_desync_recovery_witness :
    pairStream [rmcLine (rmcAt 1), rmcLine (rmcAt 2), ggaLine (ggaAt 1)] =
      .ok [(ggaAt 1, rmcAt 1)] :=
  c7_desync_recovery (rmcAt 1) (rmcAt 2) (ggaAt 1) 1 2 rfl rfl rfl (by decide)

/-- C8: a secondary fix of time `T` arriving when no retained primary has
time `T` — in particular when both slots are empty — produces no pair and
leaves the pairer state exactly as it was. -/
theorem c8_no_false_match (s : PendingState) (g : GgaData) (T : Nat)
    (hg : g.fix_time = some T)
    (hprev : ∀ p, s.previous_rmc = some p → p.fix_time ≠ some T)
    (hlast : ∀ q, s.last_rmc = some q → q.fix_time ≠ some T) :
    processLine s (ggaLine g) = (s, .ok none) := by
  rcases s with ⟨sl, sp⟩
  cases sp with
  | some p =>
      have hp : ¬(g.fix_time = p.fix_time) := by
        rw [hg]
        exact fun h => hprev p rfl h.symm
      simp [processLine, ggaLine, hp]
  | none =>
      cases sl with
      | some q =>
          have hq : ¬(g.fix_time = q.fix_time) := by
            rw [hg]
            exact fun h => hlast q rfl h.symm
          simp [processLine, ggaLine, hq]
      | none => simp [processLine, ggaLine]

/-- Witness for `c8_no_false_match`: a secondary of time 2 against a lone
`last` primary of time 1. -/
theorem c8_no_false_match_witness :
    processLine { last_rmc := some (rmcAt 1), previous_rmc := none }
        (ggaLine (ggaAt 2)) =
      ({ last_rmc := some (rmcAt 1), previous_rmc := none }, .ok none) :=
  c8_no_false_match { last_rmc := some (rmcAt 1), previous_rmc := none }
    (ggaAt 2) 2 rfl (fun _ h => Option.noConfusion h)
    (fun q h => by cases h; decide)

/-- C10: for a complete matched pair whose combined date and time of day
lies before the Unix epoch (and within one `u64` range of it), the
normalizer neither fails nor clamps: it emits a record whose `time` field is
the negative seconds-since-epoch value wrapped modulo `2 ^ 64`. -/
theorem c10_pre_epoch_wrap (idx : Nat) (g : GgaData) (r : RmcData)
    (date : Int) (tn : Nat) (la lo al sp cr : Scalar)
    (hdate : r.fix_date = some date) (hsp : r.speed_over_ground = some sp)
    (hcr : r.true_course = some cr) (ht : g.fix_time = some tn)
    (hla : g.latitude = some la) (hlo : g.longitude = some lo)
    (hal : g.altitude = some al)
    (hneg : combinedSeconds date tn < 0)
    (hlb : -(2 ^ 64) ≤ combinedSeconds date tn) :
    ∃ rec, normalizeOne idx g r = some rec ∧
      (rec.time : Int) = 2 ^ 64 + combinedSeconds date tn := by
  refine ⟨{ alarm := { active := false, certainty := 0 }
            classification := .uav
            location := { lat := la, lon := lo, height := al }
            record_number := idx
            time := u64OfInt (combinedSeconds date tn)
            velocity := none
            identification := none
            cuas_location := none }, ?_, ?_⟩
  · simp [normalizeOne, hdate, hsp, hcr, ht, hla, hlo, hal]
  · simp only [u64OfInt]
    omega

/-- Witness for `c10_pre_epoch_wrap`: the pair dated one day before the
epoch at midnight wraps to `2 ^ 64 - 86400`. -/
theorem c10_pre_epoch_wrap_witness :
    ∃ rec, normalizeOne 0 (ggaAt 0) rmcPreEpoch = some rec ∧
      (rec.time : Int) = 2 ^ 64 + combinedSeconds (-1) 0 :=
  c10_pre_epoch_wrap 0 (ggaAt 0) rmcPreEpoch (-1) 0 1 2 3 1 2
    rfl rfl rfl rfl rfl rfl rfl (by decide) (by decide)

/-- Helper: a record produced by `normalizeOne` carries the index it was
given as its `record_number`. -/
theorem normalizeOne_record_number {i : Nat} {g : GgaData} {r : RmcData}
    {rec : TrackingRecord} (h : normalizeOne i g r = some rec) :
    rec.record_number = i := by
  unfold normalizeOne at h
  split at h
  · split at h
    · injection h with h2
      rw [← h2]
    · exact Option.noConfusion h
  · exact Option.noConfusion h

/-- Helper: the first components of `List.enum` are strictly increasing. -/
theorem enum_fst_pairwise {α : Type} (l : List α) :
    l.enum.Pairwise (fun a b => a.1 < b.1) := by
  rw [List.pairwise_iff_getElem]
  intro i j hi hj hij
  rw [List.getElem_enum, List.getElem_enum]
  exact hij

/-- Helper: filtering a list of indexed pairs through the normalizer yields
records with strictly increasing record numbers whenever the indices were
strictly increasing. -/
theorem filterMap_normalize_pairwise (l : List (Nat × (GgaData × RmcData)))
    (hl : l.Pairwise (fun a b => a.1 < b.1)) :
    (l.filterMap fun ip => normalizeOne ip.1 ip.2.1 ip.2.2).Pairwise
      (fun a b => a.record_number < b.record_number) := by
  induction l with
  | nil => simp
  | cons a l ih =>
      rw [List.pairwise_cons] at hl
      rw [List.filterMap_cons]
      cases hfa : normalizeOne a.1 a.2.1 a.2.2 with
      | none => exact ih hl.2
      | some rec =>
          refine List.Pairwise.cons ?_ (ih hl.2)
          intro b hb
          obtain ⟨c, hc, hfc⟩ := List.mem_filterMap.mp hb
          rw [normalizeOne_record_number hfa, normalizeOne_record_number hfc]
          exact hl.1 c hc

/-- C5: every emitted tracking record is numbered by the 0-based position of
its originating matched pair among all matched pairs handed to the
normalizer — dropped pairs included, since the index is assigned before the
completeness check — and the record numbers across the output are strictly
increasing. -/
theorem c5_sequence_numbers (pairs : List (GgaData × RmcData)) :
    (∀ rec, rec ∈ normalize pairs →
      ∃ i, ∃ hi : i < pairs.length, rec.record_number = i ∧
        normalizeOne i (pairs.get ⟨i, hi⟩).1 (pairs.get ⟨i, hi⟩).2 = some rec) ∧
    (normalize pairs).Pairwise (fun a b => a.record_number < b.record_number) := by
  constructor
  · intro rec hrec
    simp only [normalize] at hrec
    obtain ⟨c, hmem, hf⟩ := List.mem_filterMap.mp hrec
    obtain ⟨i, p⟩ := c
    rw [List.mk_mem_enum_iff_getElem?] at hmem
    have hi : i < pairs.length := by
      by_contra hc
      rw [List.getElem?_eq_none (by omega)] at hmem
      exact Option.noConfusion hmem
    have hp : pairs.get ⟨i, hi⟩ = p := by
      rw [List.get_eq_getElem]
      exact Option.some.inj (by rw [← List.getElem?_eq_getElem hi]; exact hmem)
    exact ⟨i, hi, normalizeOne_record_number hf, by rw [hp]; exact hf⟩
  · simp only [normalize]
    exact filterMap_normalize_pairwise _ (enum_fst_pairwise pairs)

/-- Witness for `c5_sequence_numbers`: on `pairsGap` the record of the third
pair is numbered 2, and the output numbering is `[0, 2]` — strictly
increasing with a gap left by the dropped middle pair. -/
theorem c5_sequence_numbers_witness :
    (∃ i, ∃ hi : i < pairsGap.length, recGap.record_number = i ∧
      normalizeOne i (pairsGap.get ⟨i, hi⟩).1 (pairsGap.get ⟨i, hi⟩).2 =
        some recGap) ∧
    (normalize pairsGap).map (fun rec => rec.record_number) = [0, 2] :=
  ⟨(c5_sequence_numbers pairsGap).1 recGap (by decide), by decide⟩

/-- Helper: the per-line closure only returns a decode error for a
non-comment line on which the sentence decoder fails; every other line
yields an `Ok` outcome. -/
theorem processLine_not_error (s : PendingState) (l : RawLine)
    (h : ∀ m, l.decoded = .err m → l.startsPaag = true) :
    ∃ s2 o, processLine s l = (s2, .ok o) := by
  cases hp : l.startsPaag with
  | true => exact ⟨s, none, by simp [processLine, hp]⟩
  | false =>
      cases hd : l.decoded with
      | err m =>
          rw [h m hd] at hp
          exact Bool.noConfusion hp
      | rmc r =>
          by_cases h1 : r.fix_time = none
          · exact ⟨s, none, by simp [processLine, hp, hd, h1]⟩
          · by_cases h2 : s.last_rmc = none
            · exact ⟨{ s with last_rmc := some r }, none,
                by simp [processLine, hp, hd, h1, h2]⟩
            · exact ⟨{ last_rmc := some r, previous_rmc := s.last_rmc }, none,
                by simp [processLine, hp, hd, h1, h2]⟩
      | gga g =>
          cases hq : s.previous_rmc with
          | some prev =>
              by_cases h1 : g.fix_time = prev.fix_time
              · exact ⟨{ s with previous_rmc := none }, some (g, prev),
                  by simp [processLine, hp, hd, hq, h1]⟩
              · exact ⟨s, none, by simp [processLine, hp, hd, hq, h1]⟩
          | none =>
              cases hr : s.last_rmc with
              | some last =>
                  by_cases h1 : g.fix_time = last.fix_time
                  · exact ⟨{ s with last_rmc := none }, some (g, last),
                      by simp [processLine, hp, hd, hq, hr, h1]⟩
                  · exact ⟨s, none, by simp [processLine, hp, hd, hq, hr, h1]⟩
              | none => exact ⟨s, none, by simp [processLine, hp, hd, hq, hr]⟩
      | other => exact ⟨s, none, by simp [processLine, hp, hd]⟩

/-- Helper: from any state and starting line number, a scan whose first
fatal line sits after `pre` aborts there, reporting that line's number. -/
theorem pairScanFrom_fatal (s : PendingState) (n : Nat) (pre : List RawLine)
    (l : RawLine) (post : List RawLine) (msg : String)
    (hok : ∀ l2 ∈ pre, ∀ m, l2.decoded = .err m → l2.startsPaag = true)
    (hl : l.startsPaag = false) (hd : l.decoded = .err msg) :
    pairScanFrom s n (pre ++ l :: post) = .error (n + pre.length, msg) := by
  induction pre generalizing s n with
  | nil =>
      have hpl : processLine s l = (s, .error msg) := by
        simp [processLine, hl, hd]
      simp [pairScanFrom, hpl]
  | cons a pre ih =>
      obtain ⟨s2, o, ho⟩ :=
        processLine_not_error s a (hok a (List.mem_cons_self a pre))
      have hok2 : ∀ l2 ∈ pre, ∀ m, l2.decoded = .err m → l2.startsPaag = true :=
        fun l2 hm => hok l2 (List.mem_cons_of_mem a hm)
      have harith : n + 1 + pre.length = n + (a :: pre).length := by
        simp only [List.length_cons]
        omega
      cases o with
      | none =>
          simp only [List.cons_append, pairScanFrom, ho, List.append_eq]
          rw [ih s2 (n + 1) hok2, harith]
      | some p =>
          simp only [List.cons_append, pairScanFrom, ho, List.append_eq]
          rw [ih s2 (n + 1) hok2, harith]
          rfl

/-- C6: when decoding fails on a non-comment line — every line before it
being sound — the whole run fails with an error carrying that line's
1-based number, whatever lines follow (they are never reached). -/
theorem c6_fatal_decode (pre : List RawLine) (l : RawLine) (post : List RawLine)
    (msg : String)
    (hok : ∀ l2 ∈ pre, ∀ m, l2.decoded = .err m → l2.startsPaag = true)
    (hl : l.startsPaag = false) (hd : l.decoded = .err msg) :
    pairStream (pre ++ l :: post) = .error (pre.length + 1, msg) := by
  rw [pairStream, pairScanFrom_fatal ⟨none, none⟩ 1 pre l post msg hok hl hd,
    Nat.add_comm]

/-- Witness for `c6_fatal_decode`: a fatal second line is reported as line
2 and the third line is never consulted. -/
theorem c6_fatal_decode_witness :
    pairStream [rmcLine (rmcAt 1), badLine, ggaLine (ggaAt 1)] =
      .error (2, msgBad) :=
  c6_fatal_decode [rmcLine (rmcAt 1)] badLine [ggaLine (ggaAt 1)] msgBad
    (by
      intro l2 h2 m hm
      rw [List.mem_singleton.mp h2] at hm
      exact Decoded.noConfusion hm)
    rfl rfl

/-- Helper: consuming one more line advances the scan state by one step. -/
theorem stateAfter_append (s : PendingState) (ls : List RawLine) (l : RawLine) :
    stateAfter s (ls ++ [l]) = (processLine (stateAfter s ls) l).1 := by
  induction ls generalizing s with
  | nil => rfl
  | cons a ls ih =>
      simp only [List.cons_append, stateAfter]
      exact ih (processLine s a).1

/-- Helper: the instrumented analogue, the appended line receiving the
position right after the lines already consumed. -/
theorem stateAfterI_append (s : PendingStateI) (n : Nat) (ls : List RawLine)
    (l : RawLine) :
    stateAfterI s n (ls ++ [l]) = stepI (stateAfterI s n ls) (n + ls.length) l := by
  induction ls generalizing s n with
  | nil => simp [stateAfterI]
  | cons a ls ih =>
      simp only [List.cons_append, stateAfterI]
      have harith : n + (a :: ls).length = n + 1 + ls.length := by
        simp only [List.length_cons]
        omega
      rw [harith]
      exact ih (stepI s n a) (n + 1)

/-- Helper: dropping the ghost tags commutes with one pairing step. -/
theorem eraseTags_stepI (s : PendingStateI) (idx : Nat) (l : RawLine) :
    eraseTags (stepI s idx l) = (processLine (eraseTags s) l).1 := by
  rcases s with ⟨sl, sp⟩
  rcases l with ⟨b, d⟩
  cases b <;> cases d <;> cases sl <;> cases sp
  all_goals
    simp only [stepI, processLine, eraseTags, Option.map_some', Option.map_none']
  all_goals first
    | rfl
    | (split_ifs <;> rfl)

/-- Helper: slot provenance is stable under appending lines. -/
theorem slotInv_append (ls : List RawLine) (l : RawLine) (e : RmcData × Nat)
    (h : SlotInv ls e) : SlotInv (ls ++ [l]) e := by
  obtain ⟨hlen, h1, h2⟩ := h
  have hlen2 : e.2 < (ls ++ [l]).length := by
    simp only [List.length_append, List.length_singleton]
    omega
  refine ⟨hlen2, ?_, ?_⟩
  · rw [List.get_eq_getElem, List.getElem_append_left hlen]
    exact h1
  · rw [List.get_eq_getElem, List.getElem_append_left hlen]
    exact h2

/-- Helper: the line just consumed provenances the entry it pushed. -/
theorem slotInv_new (ls : List RawLine) (l : RawLine) (r : RmcData)
    (hb : l.startsPaag = false) (hd : l.decoded = .rmc r) :
    SlotInv (ls ++ [l]) (r, ls.length) := by
  have hlen : ls.length < (ls ++ [l]).length := by
    simp only [List.length_append, List.length_singleton]
    omega
  refine ⟨hlen, ?_, ?_⟩
  · rw [List.get_eq_getElem, List.getElem_concat_length ls l ls.length rfl]
    exact hb
  · rw [List.get_eq_getElem, List.getElem_concat_length ls l ls.length rfl]
    exact hd

/-- Helper: the state invariant transports along appending a line that
leaves the state unchanged. -/
theorem stateInv_mono (ls : List RawLine) (l : RawLine) (s : PendingStateI)
    (hs : StateInv ls s) : StateInv (ls ++ [l]) s :=
  ⟨fun e he => slotInv_append ls l e (hs.1 e he),
   fun e he => ⟨slotInv_append ls l e (hs.2.1 e he).1, (hs.2.1 e he).2⟩,
   hs.2.2⟩

/-- Helper: one instrumented pairing step at position `ls.length` preserves
the state invariant, extended to the consumed line. -/
theorem stateInv_step (ls : List RawLine) (l : RawLine) (s : PendingStateI)
    (hs : StateInv ls s) : StateInv (ls ++ [l]) (stepI s ls.length l) := by
  obtain ⟨hL, hP, hO⟩ := hs
  unfold stepI
  split
  · exact stateInv_mono ls l s ⟨hL, hP, hO⟩
  next hb =>
    have hb2 : l.startsPaag = false := by simpa using hb
    split
    · exact stateInv_mono ls l s ⟨hL, hP, hO⟩
    next r hd =>
      split
      · exact stateInv_mono ls l s ⟨hL, hP, hO⟩
      next h1 =>
        split
        next h2 =>
          have hpn : s.previous_rmc = none := by
            cases hq : s.previous_rmc with
            | none => rfl
            | some e =>
                have hsome := (hP e hq).2
                rw [h2] at hsome
                exact absurd hsome (by simp)
          refine ⟨?_, ?_, ?_⟩
          · intro e he
            have he2 : some (r, ls.length) = some e := he
            obtain rfl := Option.some.inj he2
            exact slotInv_new ls l r hb2 hd
          · intro e he
            have he2 : s.previous_rmc = some e := he
            rw [hpn] at he2
            exact Option.noConfusion he2
          · intro p q hp _
            have hp2 : s.previous_rmc = some p := hp
            rw [hpn] at hp2
            exact Option.noConfusion hp2
        next h2 =>
          refine ⟨?_, ?_, ?_⟩
          · intro e he
            have he2 : some (r, ls.length) = some e := he
            obtain rfl := Option.some.inj he2
            exact slotInv_new ls l r hb2 hd
          · intro e he
            have he2 : s.last_rmc = some e := he
            exact ⟨slotInv_append ls l e (hL e he2), rfl⟩
          · intro p q hp hq
            have hp2 : s.last_rmc = some p := hp
            have hq2 : some (r, ls.length) = some q := hq
            obtain rfl := Option.some.inj hq2
            obtain ⟨hlt, -, -⟩ := hL p hp2
            exact hlt
    next g hd =>
      split
      next prev hq =>
        split
        next h1 =>
          refine ⟨?_, ?_, ?_⟩
          · intro e he
            have he2 : s.last_rmc = some e := he
            exact slotInv_append ls l e (hL e he2)
          · intro e he
            have he2 : (none : Option (RmcData × Nat)) = some e := he
            exact Option.noConfusion he2
          · intro p q hp _
            have hp2 : (none : Option (RmcData × Nat)) = some p := hp
            exact Option.noConfusion hp2
        next h1 => exact stateInv_mono ls l s ⟨hL, hP, hO⟩
      next hq =>
        split
        next last hr =>
          split
          next h1 =>
            refine ⟨?_, ?_, ?_⟩
            · intro e he
              have he2 : (none : Option (RmcData × Nat)) = some e := he
              exact Option.noConfusion he2
            · intro e he
              have he2 : s.previous_rmc = some e := he
              rw [hq] at he2
              exact Option.noConfusion he2
            · intro p q hp _
              have hp2 : s.previous_rmc = some p := hp
              rw [hq] at hp2
              exact Option.noConfusion hp2
          next h1 => exact stateInv_mono ls l s ⟨hL, hP, hO⟩
        next hr => exact stateInv_mono ls l s ⟨hL, hP, hO⟩
    · exact stateInv_mono ls l s ⟨hL, hP, hO⟩

/-- Helper: the invariant holds at every point of the instrumented scan
started from the empty state. -/
theorem stateInv_run (ls : List RawLine) :
    StateInv ls (stateAfterI ⟨none, none⟩ 0 ls) := by
  induction ls using List.reverseRecOn with
  | nil =>
      exact ⟨fun e he => Option.noConfusion he,
        fun e he => Option.noConfusion he,
        fun p q hp _ => Option.noConfusion hp⟩
  | append_singleton ls l ih =>
      rw [stateAfterI_append]
      have hz : 0 + ls.length = ls.length := by omega
      rw [hz]
      exact stateInv_step ls l _ ih

/-- Helper: the instrumented scan projects onto the program's scan state. -/
theorem eraseTags_run (ls : List RawLine) :
    eraseTags (stateAfterI ⟨none, none⟩ 0 ls) = stateAfter ⟨none, none⟩ ls := by
  induction ls using List.reverseRecOn with
  | nil => rfl
  | append_singleton ls l ih =>
      rw [stateAfterI_append, stateAfter_append, eraseTags_stepI, ih]

/-- C9: at every point of the pairing scan the state never holds a lone
`previous` — an occupied `previous` slot forces an occupied `last` slot —
and the primary in `previous` was received on a strictly earlier line of
the stream than the primary in `last`: the instrumented scan, which
projects exactly onto the program's state, tags `previous` with a smaller
line position than `last`, and each tag is the position of the non-comment
line that decoded to that very primary. -/
theorem c9_pending_invariant (ls : List RawLine) :
    eraseTags (stateAfterI ⟨none, none⟩ 0 ls) = stateAfter ⟨none, none⟩ ls ∧
    ((stateAfter ⟨none, none⟩ ls).previous_rmc.isSome →
      (stateAfter ⟨none, none⟩ ls).last_rmc.isSome) ∧
    (∀ p i q j,
      (stateAfterI ⟨none, none⟩ 0 ls).previous_rmc = some (p, i) →
      (stateAfterI ⟨none, none⟩ 0 ls).last_rmc = some (q, j) →
      i < j ∧
      (stateAfter ⟨none, none⟩ ls).previous_rmc = some p ∧
      (stateAfter ⟨none, none⟩ ls).last_rmc = some q ∧
      ∃ hi : i < ls.length, ∃ hj : j < ls.length,
        (ls.get ⟨i, hi⟩).startsPaag = false ∧
        (ls.get ⟨i, hi⟩).decoded = .rmc p ∧
        (ls.get ⟨j, hj⟩).startsPaag = false ∧
        (ls.get ⟨j, hj⟩).decoded = .rmc q) := by
  obtain ⟨hL, hP, hO⟩ := stateInv_run ls
  refine ⟨eraseTags_run ls, ?_, ?_⟩
  · intro hps
    rw [← eraseTags_run ls] at hps ⊢
    have hps2 :
        ((stateAfterI ⟨none, none⟩ 0 ls).previous_rmc.map Prod.fst).isSome = true :=
      hps
    cases hpe : (stateAfterI ⟨none, none⟩ 0 ls).previous_rmc with
    | none =>
        rw [hpe] at hps2
        exact absurd hps2 (by simp)
    | some e =>
        have hsome := (hP e hpe).2
        cases hle : (stateAfterI ⟨none, none⟩ 0 ls).last_rmc with
        | none =>
            rw [hle] at hsome
            exact absurd hsome (by simp)
        | some q =>
            show ((stateAfterI ⟨none, none⟩ 0 ls).last_rmc.map Prod.fst).isSome = true
            rw [hle]
            rfl
  · intro p i q j hp hq
    obtain ⟨hpi, hpb, hpd⟩ := (hP (p, i) hp).1
    obtain ⟨hqj, hqb, hqd⟩ := hL (q, j) hq
    refine ⟨hO (p, i) (q, j) hp hq, ?_, ?_, hpi, hqj, hpb, hpd, hqb, hqd⟩
    · rw [← eraseTags_run ls]
      show (stateAfterI ⟨none, none⟩ 0 ls).previous_rmc.map Prod.fst = some p
      rw [hp]
      rfl
    · rw [← eraseTags_run ls]
      show (stateAfterI ⟨none, none⟩ 0 ls).last_rmc.map Prod.fst = some q
      rw [hq]
      rfl

/-- Witness for `c9_pending_invariant`: after two primaries of times 1 and
2, `previous` holds the first (position 0) and `last` the second
(position 1), received in that order. -/
theorem c9_pending_invariant_witness :
    0 < 1 ∧
    (stateAfter ⟨none, none⟩ [rmcLine (rmcAt 1), rmcLine (rmcAt 2)]).previous_rmc =
      some (rmcAt 1) ∧
    (stateAfter ⟨none, none⟩ [rmcLine (rmcAt 1), rmcLine (rmcAt 2)]).last_rmc =
      some (rmcAt 2) ∧
    ∃ hi : 0 < ([rmcLine (rmcAt 1), rmcLine (rmcAt 2)] : List RawLine).length,
    ∃ hj : 1 < ([rmcLine (rmcAt 1), rmcLine (rmcAt 2)] : List RawLine).length,
      (([rmcLine (rmcAt 1), rmcLine (rmcAt 2)] : List RawLine).get
        ⟨0, hi⟩).startsPaag = false ∧
      (([rmcLine (rmcAt 1), rmcLine (rmcAt 2)] : List RawLine).get
        ⟨0, hi⟩).decoded = .rmc (rmcAt 1) ∧
      (([rmcLine (rmcAt 1), rmcLine (rmcAt 2)] : List RawLine).get
        ⟨1, hj⟩).startsPaag = false ∧
      (([rmcLine (rmcAt 1), rmcLine (rmcAt 2)] : List RawLine).get
        ⟨1, hj⟩).decoded = .rmc (rmcAt 2) :=
  (c9_pending_invariant [rmcLine (rmcAt 1), rmcLine (rmcAt 2)]).2.2
    (rmcAt 1) 0 (rmcAt 2) 1 (by decide) (by decide)

end Aag
